import Mathlib

/-!
Verification development for the gittyfs node-tree handlers
(`gittyfuse/gittydir.go`: `GittyDir`, `GittyFile`) and the background
synchronization engine (`manager/manager.go`: `Manager`).

The Go code is shallowly embedded: byte buffers become `List Nat`,
the billy in-memory working tree (`memfs`, the backing store actually
mounted by `cmd/main.go`) becomes a path-keyed association list, the
go-fuse inode registry becomes an arena of node records plus a list of
`(parent, name, child)` edges, and the manager's goroutine loop becomes
a step function on its state.  Errors are explicit (`Option` / `Except`).
-/

/-- The error codes the handlers return (`syscall.EIO`, `ENOENT`,
`ENOTEMPTY`, `EXDEV`).  Success is represented by `Option.none` or
`Except.ok`, mirroring `errno == 0`. -/
inductive Errno where
  | eio
  | enoent
  | enotempty
  | exdev
deriving DecidableEq, Repr

/-- Splits a list of characters at `/`, mirroring Go's
`strings.Split(p, string(os.PathSeparator))`: `""` yields `[""]`,
`"a/b"` yields `["a", "b"]`. -/
def splitPathAux : List Char → List Char → List String
  | [], acc => [String.mk acc.reverse]
  | c :: rest, acc =>
      if c = '/' then String.mk acc.reverse :: splitPathAux rest []
      else splitPathAux rest (c :: acc)

/-- Go `strings.Split(p, "/")`. -/
def splitPath (s : String) : List String := splitPathAux s.toList []

/-- Go `filepath.Join(a, b)` for the clean, relative paths this program
builds (the node tree is rooted at path `""`, see `NewFilesystem`). -/
def pathJoin (a b : String) : String := if a = "" then b else a ++ "/" ++ b

/-- The mutable state of a `GittyFile` node: its stored absolute `path`,
the in-memory byte buffer `content`, and the `dirty` flag. -/
structure GittyFile where
  path : String
  content : List Nat
  dirty : Bool
deriving DecidableEq, Repr

/-- Embedding of `GittyFile.Write(data, off)`: if `off+len(data)` exceeds the buffer,
allocate a zero-filled slice of exactly `off+len(data)` and copy the old
content in (`newSlice := make([]byte, off+int64(len(data)))`); then
`n := copy(f.content[off:], data)` overwrites `n = min(len(content)-off,
len(data))` bytes in place and `dirty` is set.  Returns the new node
state and `n`. -/
def gittyWrite (f : GittyFile) (off : Nat) (data : List Nat) : GittyFile × Nat :=
  let base := if f.content.length < off + data.length
    then f.content ++ List.replicate (off + data.length - f.content.length) 0
    else f.content
  let k := min (base.length - off) data.length
  let c := base.take off ++ data.take k ++ base.drop (off + k)
  ({ f with content := c, dirty := true }, k)

/-- Embedding of `GittyFile.Read(dest, off)`: `off ≥ len(content)` yields the empty
result; otherwise the slice `content[off : min (off+len(dest))
(len content)]` is returned.  `destLen` is `len(dest)`. -/
def gittyRead (f : GittyFile) (off : Nat) (destLen : Nat) : List Nat :=
  if f.content.length ≤ off then []
  else (f.content.take (min (off + destLen) f.content.length)).drop off

/-- Extracting the middle segment of a three-part concatenation. -/
lemma seg_extract (a b c : List Nat) :
    ((a ++ b ++ c).take (a.length + b.length)).drop a.length = b := by
  rw [List.append_assoc, List.take_append, List.take_left, List.drop_left]

/-- After `Write(off, data)` the buffer holds at least `off+len(data)`
bytes. -/
lemma gittyWrite_length_ge (f : GittyFile) (off : Nat) (data : List Nat) :
    off + data.length ≤ ((gittyWrite f off data).1).content.length := by
  unfold gittyWrite
  by_cases h : f.content.length < off + data.length
  · simp only [h, if_true]
    have hb : (f.content ++ List.replicate (off + data.length - f.content.length) 0).length
        = off + data.length := by
      simp [List.length_append, List.length_replicate]
      omega
    simp only [List.length_append, List.length_take, List.length_drop, hb]
    omega
  · simp only [h, if_false]
    push_neg at h
    simp only [List.length_append, List.length_take, List.length_drop]
    omega

/-- C1: for every file node, any prior buffer, any offset and any data,
`Write(off, data)` followed by `Read` over `[off, off+len(data))`
returns exactly `data`. -/
theorem write_read_roundtrip (f : GittyFile) (off : Nat) (data : List Nat) :
    gittyRead (gittyWrite f off data).1 off data.length = data := by
  have hbase : off + data.length ≤
      (if f.content.length < off + data.length
        then f.content ++ List.replicate (off + data.length - f.content.length) 0
        else f.content).length := by
    by_cases h : f.content.length < off + data.length
    · simp [h, List.length_append, List.length_replicate]; omega
    · simp [h]; omega
  set base := (if f.content.length < off + data.length
    then f.content ++ List.replicate (off + data.length - f.content.length) 0
    else f.content) with hbdef
  have hk : min (base.length - off) data.length = data.length := by omega
  have hc : (gittyWrite f off data).1.content
      = base.take off ++ data.take (min (base.length - off) data.length)
        ++ base.drop (off + min (base.length - off) data.length) := rfl
  rw [hk, List.take_length] at hc
  have hto : (base.take off).length = off := by
    simp [List.length_take]; omega
  have hclen : (base.take off ++ data ++ base.drop (off + data.length)).length
      = base.length := by
    simp [List.length_append, List.length_take, List.length_drop]
    omega
  unfold gittyRead
  rw [hc]
  simp only [hclen]
  rcases Nat.eq_zero_or_pos data.length with hd | hd
  · -- data = []: either branch returns the empty list
    have hdata : data = [] := List.length_eq_zero.mp hd
    subst hdata
    by_cases hle : base.length ≤ off
    · simp [hle]
    · simp only [hle, if_false]
      have hmin0 : min (off + List.length ([] : List Nat)) base.length = off := by
        simp only [List.length_nil]; omega
      rw [hmin0]
      apply List.drop_eq_nil_of_le
      simp [List.length_take]
  · -- data ≠ []: off + len data ≤ base.length rules out the short branch
    have hlt : ¬ base.length ≤ off := by omega
    simp only [hlt, if_false]
    have hmin : min (off + data.length) base.length = off + data.length := by omega
    rw [hmin]
    have hseg := seg_extract (base.take off) data (base.drop (off + data.length))
    rw [hto] at hseg
    exact hseg

/-! ## Backing store (billy `memfs`, the working tree mounted by `cmd/main.go`) -/

/-- One entry of the path-addressed backing store: a blob with its
stored permission bits, or a directory. -/
inductive Entry where
  | file (content : List Nat) (mode : Nat)
  | dir (mode : Nat)
deriving DecidableEq, Repr

/-- The billy in-memory working tree: a flat map from paths to entries
(memfs keys the storage by full path). -/
abbrev Backing : Type := List (String × Entry)

/-- Embedding of `wt.Stat(path)`: `some` entry when the path is stored, `none` for
the not-exist error. -/
def statB (b : Backing) (p : String) : Option Entry :=
  (b.find? (fun e => e.1 = p)).map (fun e => e.2)

/-- Embedding of `info.Size()`: the blob length for files (directories report a
nominal 0 in memfs). -/
def entrySize : Entry → Nat
  | Entry.file c _ => c.length
  | Entry.dir _ => 0

/-- Embedding of `info.Mode()`. -/
def entryMode : Entry → Nat
  | Entry.file _ m => m
  | Entry.dir m => m

/-- Is `child` a direct child path of directory path `parent`?  (memfs
`Children`: for the root `""` the paths without a separator, otherwise
the paths extending `parent ++ "/"` by a single component.) -/
def isDirectChild (parent child : String) : Bool :=
  let p := parent.toList
  let c := child.toList
  if p.isEmpty then !c.isEmpty && !(c.contains '/')
  else (p ++ ['/']).isPrefixOf c && !((c.drop (p.length + 1)).contains '/')

/-- Embedding of `wt.ReadDir(path)`: the directly contained entries.  memfs returns
an empty listing (and no error) for absent paths, so the `ENOENT`/`EIO`
branches of `Rmdir` are dead with the mounted backing store. -/
def readDirB (b : Backing) (p : String) : List (String × Entry) :=
  b.filter (fun e => isDirectChild p e.1)

/-- Embedding of `wt.Remove(path)`: deletes the stored entry, not-exist error
(`none`) when the path is absent. -/
def removeB (b : Backing) (p : String) : Option Backing :=
  if b.any (fun e => e.1 = p) then some (b.filter (fun e => !(e.1 = p : Bool)))
  else none

/-- Is `p` a strict prefix directory of `q` (i.e. `q` lies inside the
subtree of `p`)? -/
def underPath (p q : String) : Bool :=
  (p.toList ++ ['/']).isPrefixOf q.toList

/-- Is the stored entry a regular file blob? -/
def entryIsFile : Entry → Bool
  | Entry.file _ _ => true
  | Entry.dir _ => false

/-- Does some stored ancestor position of `p` hold a regular file?
memfs entry creation walks the parent chain and errors when a parent
path is stored as a file. -/
def ancestorIsFile (b : Backing) (p : String) : Bool :=
  b.any (fun e => underPath e.1 p && entryIsFile e.2)

/-- Embedding of `wt.OpenFile(path, O_WRONLY|O_CREATE|O_TRUNC, 0644)` followed by a
full `Write` of `c`: truncating an existing blob keeps its stored mode;
opening a stored directory fails (memfs "cannot open directory");
creating a new blob uses mode `0644` but fails when an ancestor path is
stored as a regular file.  `none` is the error the Go code maps to
`EIO`. -/
def writeFileB (b : Backing) (p : String) (c : List Nat) : Option Backing :=
  match b.find? (fun e => e.1 = p) with
  | some (_, Entry.file _ m) =>
      some (b.map (fun e => if e.1 = p then (p, Entry.file c m) else e))
  | some (_, Entry.dir _) => none
  | none =>
      if ancestorIsFile b p then none
      else some (b ++ [(p, Entry.file c 0o644)])

/-- Embedding of `wt.Rename(src, dst)`: memfs re-keys the entry at `src` (and, for a
directory, every entry beneath it) to `dst`; not-exist error (`none`)
when nothing is stored at or beneath `src`. -/
def renameB (b : Backing) (src dst : String) : Option Backing :=
  if b.any (fun e => e.1 = src || underPath src e.1) then
    some (b.map (fun e =>
      if e.1 = src then (dst, e.2)
      else if underPath src e.1 then
        (dst ++ String.mk (e.1.toList.drop src.length), e.2)
      else e))
  else none

/-! ## `GittyFile.Fsync` and `GittyFile.Getattr` -/

/-- Embedding of `GittyFile.Fsync`: a clean node returns 0 untouched; a dirty node
rewrites the full backing entry at its path from the buffer, clears
`dirty` and emits a `"write"` change event — but when the backing
`OpenFile`/`Write` fails (the path holds a directory, or a new entry
would sit under a regular-file ancestor) it returns `EIO` with nothing
written, no event, and `dirty` left set.  Result: backing store, node,
emitted events, errno. -/
def gittyFsync (b : Backing) (f : GittyFile) :
    Backing × GittyFile × List (String × String) × Option Errno :=
  if f.dirty = false then (b, f, [], none)
  else
    match writeFileB b f.path f.content with
    | none => (b, f, [], some Errno.eio)
    | some bNew =>
        (bNew, { f with dirty := false }, [(f.path, "write")], none)

/-- The attribute record `Getattr` fills in (`out.Size`, `out.Mode`). -/
structure AttrOut where
  size : Nat
  mode : Nat
deriving DecidableEq, Repr

/-- Embedding of `GittyFile.Getattr`: when `wt.Stat` succeeds the backing size and
mode are reported, except that a dirty node reports the in-memory
buffer length; when `Stat` fails the node falls back to the in-memory
state with default mode `0666`.  Neither branch returns an error. -/
def gittyGetattr (b : Backing) (f : GittyFile) : AttrOut × Option Errno :=
  match statB b f.path with
  | some info =>
      (⟨if f.dirty then f.content.length else entrySize info, entryMode info⟩, none)
  | none => (⟨f.content.length, 0o666⟩, none)

/-! ## The node tree (go-fuse inode registry + `GittyDir`/`GittyFile` ops)

Inodes are arena records addressed by numeric ids; the `(parent, name,
child)` edges model the per-inode children maps.  `NewPersistentInode`
wraps an operations object in a fresh kernel inode: in this model the
fresh id carries over the operations record unchanged (in `Rename` the
very same `*GittyFile` object is re-wrapped, so its `path`, `content`
and `dirty` fields are carried over verbatim). -/

/-- The operations object behind an inode: a `GittyFile` or a
`GittyDir` (which owns only its stored `path`). -/
inductive NodeData where
  | file (f : GittyFile)
  | dir (path : String)
deriving DecidableEq, Repr

/-- The in-memory node tree: inode arena plus children edges.
`nextId` is the next unused inode id. -/
structure NodeTree where
  nodes : List (Nat × NodeData)
  edges : List (Nat × String × Nat)
  nextId : Nat
deriving DecidableEq, Repr

/-- Embedding of `node.Children()` as a name → id list. -/
def childrenOf (t : NodeTree) (p : Nat) : List (String × Nat) :=
  t.edges.filterMap (fun e => if e.1 = p then some (e.2.1, e.2.2) else none)

/-- The children-map lookup inside `findFile`'s loop: the unique child
of `p` named `name`, if any. -/
def lookupChild (t : NodeTree) (p : Nat) (name : String) : Option Nat :=
  (t.edges.find? (fun e => e.1 = p && e.2.1 = name)).map (fun e => e.2.2)

/-- Does inode `p` have a child named `name`? -/
def hasChild (t : NodeTree) (p : Nat) (name : String) : Bool :=
  t.edges.any (fun e => e.1 = p && e.2.1 = name)

/-- Embedding of `node.Parent()` (an arbitrary parent; unique in a well-formed
tree). -/
def parentOf (t : NodeTree) (c : Nat) : Option Nat :=
  (t.edges.find? (fun e => e.2.2 = c)).map (fun e => e.1)

/-- The operations object of inode `i`. -/
def nodeData (t : NodeTree) (i : Nat) : Option NodeData :=
  (t.nodes.find? (fun e => e.1 = i)).map (fun e => e.2)

/-- Embedding of `traverseUp` in `GittyDir.findFile`: climb `Parent()` links until
`IsRoot()`.  The Go recursion is unbounded; in any acyclic tree the
parent chain is shorter than the number of edges, so that is used as
fuel (on ill-formed cyclic state the Go code would not terminate). -/
def traverseUp (t : NodeTree) : Nat → Nat → Nat
  | 0, n => n
  | fuel + 1, n =>
      match parentOf t n with
      | none => n
      | some p => traverseUp t fuel p

/-- The root inode `findFile` starts from. -/
def rootOf (t : NodeTree) (n : Nat) : Nat := traverseUp t (t.edges.length + 1) n

/-- Embedding of `GittyDir.findFile(p)` after the climb to the root: walk the
components of `p`; a component with no matching child leaves the
current node unchanged (that is the Go loop's behaviour — no error). -/
def findFile (t : NodeTree) (root : Nat) (p : String) : Nat :=
  (splitPath p).foldl
    (fun cur v =>
      match lookupChild t cur v with
      | some c => c
      | none => cur)
    root

/-- Embedding of `Inode.RmChild(name)`: unlink the named child; reports whether the
child existed. -/
def rmChild (t : NodeTree) (p : Nat) (name : String) : NodeTree × Bool :=
  if hasChild t p name then
    ({ t with edges := t.edges.filter (fun e => !(e.1 = p && e.2.1 = name)) }, true)
  else (t, false)

/-- Embedding of `Inode.AddChild(name, child, overwrite=true)`: link `c` under `p`
as `name`, displacing any previous holder of the name; always
succeeds. -/
def addChild (t : NodeTree) (p : Nat) (name : String) (c : Nat) : NodeTree × Bool :=
  ({ t with
      edges := t.edges.filter (fun e => !(e.1 = p && e.2.1 = name)) ++ [(p, name, c)] },
    true)

/-- Embedding of `NewPersistentInode(ctx, ops, ...)`: a fresh inode id whose
operations record is `d` (the same object the caller passed in). -/
def newPersistentInode (t : NodeTree) (d : NodeData) : NodeTree × Nat :=
  ({ t with nodes := t.nodes ++ [(t.nextId, d)], nextId := t.nextId + 1 }, t.nextId)

/-! ## `GittyDir.Readdir`, `GittyDir.Rmdir`, `GittyDir.Rename` -/

/-- Embedding of `GittyDir.Readdir`: it builds `r := make([]fuse.DirEntry, 0, 0)`, logs
`d.Children()`, and returns `fs.NewListDirStream(r)` — the entry list
handed to the kernel is always empty; the children map is only
logged. -/
def gittyReaddir (_t : NodeTree) (_dId : Nat) : List String :=
  []

/-- Embedding of `GittyDir.Rmdir(name)` (receiver: inode `dId` with stored path
`dPath`): list the backing directory at `Join(d.path, name)`; a
non-empty listing is `ENOTEMPTY`; otherwise remove the backing entry
(its failure is `EIO`), unlink the child and emit an `"rmdir"` event.
Result: backing, tree, emitted events, errno. -/
def gittyRmdir (b : Backing) (t : NodeTree) (dId : Nat) (dPath : String) (name : String) :
    Backing × NodeTree × List (String × String) × Option Errno :=
  let path := pathJoin dPath name
  let entries := readDirB b path
  if entries.length > 0 then (b, t, [], some Errno.enotempty)
  else
    match removeB b path with
    | none => (b, t, [], some Errno.eio)
    | some bNew => ((bNew, (rmChild t dId name).1, [(path, "rmdir")], none))

/-- The `newParent fs.InodeEmbedder` argument of `Rename`, as the
closed variant the type switch distinguishes: a `*GittyDir` (carrying
its stored path), a `*GittyFile`, the `*Filesystem` root (carrying its
stored path), or anything else. -/
inductive RenameTarget where
  | gdir (path : String)
  | gfile
  | groot (path : String)
  | unknown
deriving DecidableEq, Repr

/-- The `newParentPath`/`newPath` pair the type switch computes: for a
`*GittyFile` target neither variable is ever assigned (both stay `""`);
for an unrecognised embedder `newPath` is just `newName`. -/
def renamePaths (newParent : RenameTarget) (newName : String) : String × String :=
  match newParent with
  | RenameTarget.gdir p => (p, pathJoin p newName)
  | RenameTarget.gfile => ("", "")
  | RenameTarget.groot p => (p, pathJoin p newName)
  | RenameTarget.unknown => ("", newName)

/-- Embedding of `GittyDir.Rename(oldName, newParent, newName)` (receiver: inode
`dId` with stored path `dPath`).  Steps, in source order: backing
`wt.Rename(oldPath, newPath)` (failure `EIO`); climb to the root and
re-resolve `oldPath` and `newParentPath` by path walk (`findFile`);
`RmChild(oldName)` on the resolved node's parent (failure `EIO`; a
missing parent — the Go code would dereference a nil `*Inode` — is
modelled as `EIO`); re-wrap the *same* `*GittyFile` operations object
(`oldFile.Operations().(*GittyFile)`; on a non-file node this type
assertion panics — modelled as `EIO`) in a fresh persistent inode and
`AddChild` it under the resolved new parent as `newName`; emit
`"delete"` for the old path and `"create"` for the new path.  The
operations object — in particular its stored `path` — is never
modified. -/
def gittyRename (t : NodeTree) (b : Backing) (dId : Nat) (dPath : String)
    (oldName : String) (newParent : RenameTarget) (newName : String) :
    Except Errno (NodeTree × Backing × List (String × String)) :=
  let oldPath := pathJoin dPath oldName
  let pp := renamePaths newParent newName
  match renameB b oldPath pp.2 with
  | none => Except.error Errno.eio
  | some bNew =>
      let root := rootOf t dId
      let oldFile := findFile t root oldPath
      let newParentDir := findFile t root pp.1
      match parentOf t oldFile with
      | none => Except.error Errno.eio
      | some oldParentDir =>
          let r1 := rmChild t oldParentDir oldName
          if r1.2 = false then Except.error Errno.eio
          else
            match nodeData r1.1 oldFile with
            | some (NodeData.file gf) =>
                let r2 := newPersistentInode r1.1 (NodeData.file gf)
                let r3 := addChild r2.1 newParentDir newName r2.2
                Except.ok (r3.1, bNew, [(oldPath, "delete"), (pp.2, "create")])
            | _ => Except.error Errno.eio

/-! ## Sync Manager (`manager/manager.go`)

Time is discrete: one time unit is one second of the Go code, so the
`time.NewTicker(1 * time.Second)` of `Run` fires once per unit and the
quiescence threshold `syncInterval = 2 * time.Second` is `2`. -/

/-- Embedding of `ChangeNotification`: path, operation, timestamp. -/
structure ChangeNotification where
  path : String
  op : String
  time : Nat
deriving DecidableEq, Repr

/-- The dirty/last-change part of the `Manager` state. -/
structure MState where
  isDirty : Bool
  lastChangeTime : Nat
deriving DecidableEq, Repr

/-- The outcomes of the external git calls a synchronization cycle
performs, in `SyncToGit`'s order: `Config`, `SetConfig`, `Worktree`,
`Add(".")`, `Commit`, building the auth method (its failure is a
`log.Fatalf`, so the process dies with the flag still set — modelled as
a failed cycle), `Push`. -/
structure GitEnv where
  configOk : Bool
  setConfigOk : Bool
  worktreeOk : Bool
  addOk : Bool
  commitOk : Bool
  authOk : Bool
  pushOk : Bool
deriving DecidableEq, Repr

/-- Every git call of the cycle succeeded. -/
def envAllOk (e : GitEnv) : Bool :=
  e.configOk && e.setConfigOk && e.worktreeOk && e.addOk && e.commitOk
    && e.authOk && e.pushOk

/-- Embedding of `Manager.SyncToGit`: a clean manager returns `nil` immediately; any
failing git call returns its error with the state untouched; only after
`Push` succeeds is `isDirty` reset.  The returned `Bool` is `err ==
nil`. -/
def syncToGit (s : MState) (e : GitEnv) : MState × Bool :=
  if !s.isDirty then (s, true)
  else if !e.configOk then (s, false)
  else if !e.setConfigOk then (s, false)
  else if !e.worktreeOk then (s, false)
  else if !e.addOk then (s, false)
  else if !e.commitOk then (s, false)
  else if !e.authOk then (s, false)
  else if !e.pushOk then (s, false)
  else ({ s with isDirty := false }, true)

/-- One iteration of `Manager.Run`'s `select`: either a change
notification is consumed from the queue, or the ticker fires (at
absolute time `now`, with the git environment `env`). -/
inductive MInput where
  | event (n : ChangeNotification)
  | tick (now : Nat) (env : GitEnv)
deriving DecidableEq, Repr

/-- The `Run` loop body.  Consuming an event sets `isDirty` and records
the event's timestamp.  A tick runs a synchronization cycle iff
`isDirty && now - lastChangeTime ≥ 2`.  The returned `Bool` reports
whether a cycle ran. -/
def runStep (s : MState) (i : MInput) : MState × Bool :=
  match i with
  | MInput.event n => ({ isDirty := true, lastChangeTime := n.time }, false)
  | MInput.tick now env =>
      if s.isDirty && decide (2 ≤ now - s.lastChangeTime) then
        ((syncToGit s env).1, true)
      else (s, false)

/-- The capacity of the bounded change queue
(`make(chan ChangeNotification, 100)`). -/
def queueCapacity : Nat := 100

/-- Embedding of `Manager.NotifyChange`: the non-blocking `select` send — appends
to the queue when there is room, otherwise drops the new notification
(logging it) and returns at once. -/
def notifyChange (q : List ChangeNotification) (n : ChangeNotification) :
    List ChangeNotification :=
  if q.length < queueCapacity then q ++ [n] else q

/-- Consuming a whole queue of accepted events through the `Run` loop:
the dirty/last-change state it produces. -/
def consumeAll (s : MState) (q : List ChangeNotification) : MState :=
  q.foldl (fun s n => (runStep s (MInput.event n)).1) s

/-- A git environment in which every call succeeds. -/
def allOkEnv : GitEnv := ⟨true, true, true, true, true, true, true⟩

/-- The manager's start state (`NewManager`: `isDirty: false`). -/
def mInit : MState := { isDirty := false, lastChangeTime := 0 }

/-- One discrete time unit of the running manager: first any change
event scheduled for time `t` is consumed (its timestamp is `t`), then
the once-per-unit ticker fires at time `t`; synchronization cycles are
taken to succeed.  Returns the new state and whether a cycle ran. -/
def simStep (sched : Nat → Bool) (t : Nat) (s : MState) : MState × Bool :=
  let s1 := if sched t then (runStep s (MInput.event ⟨"", "", t⟩)).1 else s
  runStep s1 (MInput.tick t allOkEnv)

/-- Running the manager over times `0, 1, ..., T-1` from the start
state: the final state and the times at which synchronization cycles
ran. -/
def simRun (sched : Nat → Bool) : Nat → MState × List Nat
  | 0 => (mInit, [])
  | T + 1 =>
      let r := simRun sched T
      let st := simStep sched T r.1
      (st.1, if st.2 then r.2 ++ [T] else r.2)

/-! ## Claims about the queue, Rmdir, Getattr, Readdir, Fsync -/

/-- C9: emitting a change event onto a full queue returns with the
queue unchanged — the newest event is dropped — and the dirty-flag
state obtained by consuming the accepted events is unaffected. -/
theorem notifyChange_full_drops (q : List ChangeNotification)
    (n : ChangeNotification) (s : MState) (h : q.length = queueCapacity) :
    notifyChange q n = q ∧ consumeAll s (notifyChange q n) = consumeAll s q := by
  have hlt : ¬ q.length < queueCapacity := by omega
  constructor
  · simp [notifyChange, hlt]
  · simp [notifyChange, hlt]

/-- Witness for C9 at a concrete full queue. -/
theorem notifyChange_full_drops_witness :
    notifyChange (List.replicate 100 ⟨"a", "write", 0⟩) ⟨"b", "create", 7⟩
      = List.replicate 100 ⟨"a", "write", 0⟩ :=
  (notifyChange_full_drops (List.replicate 100 ⟨"a", "write", 0⟩) ⟨"b", "create", 7⟩
    mInit (by simp [queueCapacity])).1

/-- C4: `Rmdir` on a target whose backing listing is non-empty fails
with `ENOTEMPTY` and leaves the backing store and the tree unchanged,
unlinks nothing and emits no change event. -/
theorem rmdir_nonempty_enotempty (b : Backing) (t : NodeTree) (dId : Nat)
    (dPath name : String) (h : readDirB b (pathJoin dPath name) ≠ []) :
    gittyRmdir b t dId dPath name = (b, t, [], some Errno.enotempty) := by
  have hlen : 0 < (readDirB b (pathJoin dPath name)).length :=
    List.length_pos.mpr h
  unfold gittyRmdir
  simp [hlen]

/-- Witness for C4: removing directory `d`, which still holds the
backing entry `d/x`. -/
theorem rmdir_nonempty_enotempty_witness :
    gittyRmdir [("d", Entry.dir 493), ("d/x", Entry.file [] 420)] ⟨[], [], 0⟩
        0 "" "d"
      = ([("d", Entry.dir 493), ("d/x", Entry.file [] 420)], ⟨[], [], 0⟩, [],
          some Errno.enotempty) :=
  rmdir_nonempty_enotempty [("d", Entry.dir 493), ("d/x", Entry.file [] 420)]
    ⟨[], [], 0⟩ 0 "" "d" (by decide)

/-- C10: `GittyFile.Getattr` never returns an error; a dirty node
reports the buffer length as size; a missing backing entry is answered
from the in-memory state with default mode `0666`; only a clean node
with an existing backing entry reports the backing size. -/
theorem getattr_spec (b : Backing) (f : GittyFile) :
    (gittyGetattr b f).2 = none
    ∧ (f.dirty = true → (gittyGetattr b f).1.size = f.content.length)
    ∧ (statB b f.path = none →
        (gittyGetattr b f).1 = ⟨f.content.length, 0o666⟩)
    ∧ (∀ info, f.dirty = false → statB b f.path = some info →
        (gittyGetattr b f).1.size = entrySize info) := by
  unfold gittyGetattr
  cases hstat : statB b f.path with
  | none => simp
  | some info =>
      cases hdi : f.dirty <;> simp_all

/-- Witness for C10 on a dirty node whose backing entry is larger than
the buffer: the buffer length wins. -/
theorem getattr_spec_witness :
    (gittyGetattr [("x", Entry.file [1, 2, 3] 420)] ⟨"x", [9], true⟩).1.size
      = ([9] : List Nat).length :=
  (getattr_spec [("x", Entry.file [1, 2, 3] 420)] ⟨"x", [9], true⟩).2.1 rfl

/-- C3 (code-bug evidence): on a directory with one linked child the
children map holds the child, yet `Readdir` hands the kernel an empty
entry list. -/
theorem readdir_ignores_children :
    gittyReaddir
        ⟨[(0, NodeData.dir ""), (1, NodeData.file ⟨"a.txt", [], false⟩)],
          [(0, "a.txt", 1)], 2⟩ 0 = []
    ∧ childrenOf
        ⟨[(0, NodeData.dir ""), (1, NodeData.file ⟨"a.txt", [], false⟩)],
          [(0, "a.txt", 1)], 2⟩ 0 = [("a.txt", 1)] := by
  constructor
  · rfl
  · rfl

/-- Replacing the value stored under key `p` is visible to `find?`
whenever some entry with key `p` exists. -/
lemma find?_map_replace (p : String) (v : Entry) :
    ∀ b : Backing, (b.find? (fun e => e.1 = p)).isSome = true →
      (b.map (fun e => if e.1 = p then (p, v) else e)).find?
          (fun e => e.1 = p) = some (p, v) := by
  intro b
  induction b with
  | nil => intro h; simp [List.find?] at h
  | cons hd tl ih =>
      intro h
      by_cases hq : hd.1 = p
      · simp [List.find?, hq]
      · have h' : (tl.find? (fun e => e.1 = p)).isSome = true := by
          simpa [List.find?_cons_of_neg, hq] using h
        simpa [List.find?_cons_of_neg, hq] using ih h'

/-- Evaluating `find?` over an append whose left part has no hit. -/
lemma find?_append_right {α : Type} (l₁ l₂ : List α) (p : α → Bool)
    (h : l₁.find? p = none) : (l₁ ++ l₂).find? p = l₂.find? p := by
  induction l₁ with
  | nil => simp
  | cons hd tl ih =>
      rcases hfp : p hd with hf | ht
      · have h' : tl.find? p = none := by
          simpa [List.find?_cons_of_neg, hfp] using h
        simpa [List.find?_cons_of_neg, hfp] using ih h'
      · rw [List.find?_cons_of_pos _ hfp] at h
        exact absurd h (by simp)

/-- When the `writeFileB` rewrite succeeds, the backing entry at `p` is
a blob holding exactly `c`. -/
lemma statB_writeFileB (b bNew : Backing) (p : String) (c : List Nat)
    (h : writeFileB b p c = some bNew) :
    ∃ m, statB bNew p = some (Entry.file c m) := by
  unfold writeFileB at h
  cases hfind : b.find? (fun e => e.1 = p) with
  | none =>
      rw [hfind] at h
      by_cases ha : ancestorIsFile b p
      · simp [ha] at h
      · simp only [ha, if_false] at h
        simp at h
        refine ⟨0o644, ?_⟩
        rw [← h]
        unfold statB
        rw [find?_append_right _ _ _ hfind]
        simp [List.find?]
  | some e =>
      rw [hfind] at h
      have hsome : (b.find? (fun e => e.1 = p)).isSome = true := by
        rw [hfind]; rfl
      obtain ⟨q, en⟩ := e
      cases en with
      | file c0 m =>
          simp at h
          refine ⟨m, ?_⟩
          rw [← h]
          unfold statB
          rw [find?_map_replace p _ b hsome]
          rfl
      | dir m => simp at h

/-- C5 counterexample: a dirty node whose backing path holds a
directory entry — reachable by unlinking the still-open file and
creating a directory of the same name, or via the stale stored path the
rename bug of C2 leaves behind.  `Fsync` returns `EIO`, rewrites
nothing, emits no event and leaves the node dirty, against the claim's
unconditional rewrite/clear/emit for dirty nodes. -/
theorem fsync_dir_entry_eio :
    gittyFsync [("x", Entry.dir 493)] ⟨"x", [1], true⟩
      = ([("x", Entry.dir 493)], ⟨"x", [1], true⟩, [], some Errno.eio) := by
  rfl

/-- C5 (amended): `Fsync` on a clean node changes nothing, emits
nothing and succeeds.  On a dirty node the outcome follows the backing
open: when the full-entry rewrite succeeds, the backing entry at the
node's path equals the buffer, `dirty` is cleared and a `"write"` event
is emitted; when the backing open/write fails (directory at the path,
or a regular-file ancestor), `Fsync` returns `EIO`, writes nothing,
emits nothing and leaves `dirty` set. -/
theorem fsync_spec (b : Backing) (f : GittyFile) :
    (f.dirty = true → ∀ bNew, writeFileB b f.path f.content = some bNew →
      gittyFsync b f = (bNew, { f with dirty := false }, [(f.path, "write")], none)
      ∧ ∃ m, statB bNew f.path = some (Entry.file f.content m))
    ∧ (f.dirty = true → writeFileB b f.path f.content = none →
      gittyFsync b f = (b, f, [], some Errno.eio))
    ∧ (f.dirty = false → gittyFsync b f = (b, f, [], none)) := by
  refine ⟨?_, ?_, ?_⟩
  · intro hd bNew hw
    constructor
    · unfold gittyFsync
      rw [hw]
      simp [hd]
    · exact statB_writeFileB b bNew f.path f.content hw
  · intro hd hw
    unfold gittyFsync
    rw [hw]
    simp [hd]
  · intro hd
    unfold gittyFsync
    simp [hd]

/-- Witness for the amended C5 theorem, the spec's scenario: path
`a/b.txt`, buffer `"hello"`, dirty, the rewrite succeeding on an empty
backing store; the resulting backing entry equals the buffer. -/
theorem fsync_spec_witness :
    gittyFsync [] ⟨"a/b.txt", [104, 101, 108, 108, 111], true⟩
      = ([("a/b.txt", Entry.file [104, 101, 108, 108, 111] 0o644)],
          { path := "a/b.txt", content := [104, 101, 108, 108, 111], dirty := false },
          [("a/b.txt", "write")], none)
    ∧ ∃ m, statB [("a/b.txt", Entry.file [104, 101, 108, 108, 111] 0o644)] "a/b.txt"
        = some (Entry.file [104, 101, 108, 108, 111] m) :=
  (fsync_spec [] ⟨"a/b.txt", [104, 101, 108, 108, 111], true⟩).1 rfl
    [("a/b.txt", Entry.file [104, 101, 108, 108, 111] 0o644)] (by rfl)

/-! ## C7: the dirty flag over manager steps -/

/-- A failing cycle (some git call failed) leaves the manager state —
in particular the dirty flag — untouched. -/
lemma syncToGit_fail_preserves (s : MState) (e : GitEnv)
    (h : envAllOk e = false) : (syncToGit s e).1 = s := by
  rcases e with ⟨c1, c2, c3, c4, c5, c6, c7⟩
  cases hd : s.isDirty <;>
    cases c1 <;> cases c2 <;> cases c3 <;> cases c4 <;> cases c5 <;>
    cases c6 <;> cases c7 <;>
    simp_all [syncToGit, envAllOk]

/-- If a cycle on a dirty manager cleared the flag, every git call of
the cycle — in particular commit and push — succeeded. -/
lemma syncToGit_clears (s : MState) (e : GitEnv) (hd : s.isDirty = true)
    (h : (syncToGit s e).1.isDirty = false) : envAllOk e = true := by
  rcases e with ⟨c1, c2, c3, c4, c5, c6, c7⟩
  cases c1 <;> cases c2 <;> cases c3 <;> cases c4 <;> cases c5 <;>
    cases c6 <;> cases c7 <;>
    simp_all [syncToGit, envAllOk]

/-- A fully successful environment has a successful commit. -/
lemma envAllOk_commit (e : GitEnv) (h : envAllOk e = true) : e.commitOk = true := by
  rcases e with ⟨c1, c2, c3, c4, c5, c6, c7⟩
  simp [envAllOk, Bool.and_eq_true] at h
  simp [h]

/-- A fully successful environment has a successful push. -/
lemma envAllOk_push (e : GitEnv) (h : envAllOk e = true) : e.pushOk = true := by
  rcases e with ⟨c1, c2, c3, c4, c5, c6, c7⟩
  simp [envAllOk, Bool.and_eq_true] at h
  simp [h]

/-- C7: over any manager step, the dirty flag goes false→true exactly
on consuming a change event; it goes true→false only on a tick whose
synchronization cycle had every git call — commit and push included —
succeed; and a tick whose cycle has any failing call leaves the flag as
it was. -/
theorem dirty_flag_transitions (s : MState) (i : MInput) :
    (s.isDirty = false →
      ((runStep s i).1.isDirty = true ↔ ∃ n, i = MInput.event n))
    ∧ (s.isDirty = true → (runStep s i).1.isDirty = false →
        ∃ now env, i = MInput.tick now env ∧ envAllOk env = true
          ∧ env.commitOk = true ∧ env.pushOk = true)
    ∧ (∀ now env, i = MInput.tick now env → envAllOk env = false →
        (runStep s i).1.isDirty = s.isDirty) := by
  cases i with
  | event n =>
      refine ⟨?_, ?_, ?_⟩
      · intro _
        constructor
        · intro _
          exact ⟨n, rfl⟩
        · intro _
          rfl
      · intro hd habs
        simp [runStep] at habs
      · intro now env h
        exact absurd h (by simp)
  | tick now env =>
      refine ⟨?_, ?_, ?_⟩
      · intro hd
        simp [runStep, hd]
      · intro hd hres
        simp only [runStep] at hres
        cases hcb : (s.isDirty && decide (2 ≤ now - s.lastChangeTime)) with
        | false =>
            rw [hcb] at hres
            simp at hres
            rw [hres] at hd
            exact absurd hd (by simp)
        | true =>
            rw [hcb] at hres
            simp at hres
            have hall : envAllOk env = true := syncToGit_clears s env hd hres
            exact ⟨now, env, rfl, hall, envAllOk_commit env hall,
              envAllOk_push env hall⟩
      · intro now' env' h hfail
        injection h with h1 h2
        subst h1
        subst h2
        simp only [runStep]
        cases hcb : (s.isDirty && decide (2 ≤ now - s.lastChangeTime)) with
        | false =>
            simp
        | true =>
            simp
            rw [syncToGit_fail_preserves s env hfail]

/-- Witness for C7: consuming an event from the clean start state sets
the dirty flag. -/
theorem dirty_flag_transitions_witness :
    (runStep mInit (MInput.event ⟨"a", "create", 3⟩)).1.isDirty = true :=
  ((dirty_flag_transitions mInit (MInput.event ⟨"a", "create", 3⟩)).1 rfl).mpr
    ⟨⟨"a", "create", 3⟩, rfl⟩

/-! ## C6: no cross-device check in `GittyDir.Rename` -/

/-- C6 (amended): `GittyDir.Rename` performs no cross-tree-instance
check and can never fail with `EXDEV` (`CrossDeviceNotSupported`) — its
only outcomes are success and `EIO`. -/
theorem rename_never_exdev (t : NodeTree) (b : Backing) (dId : Nat)
    (dPath oldName newName : String) (np : RenameTarget) :
    gittyRename t b dId dPath oldName np newName ≠ Except.error Errno.exdev := by
  intro h
  unfold gittyRename at h
  dsimp only at h
  cases hr : renameB b (pathJoin dPath oldName) (renamePaths np newName).2 with
  | none =>
      rw [hr] at h
      simp at h
  | some bNew =>
      rw [hr] at h
      cases hp : parentOf t (findFile t (rootOf t dId) (pathJoin dPath oldName)) with
      | none =>
          rw [hp] at h
          simp at h
      | some opId =>
          rw [hp] at h
          by_cases hrm : (rmChild t opId oldName).2 = false
          · simp only [hrm, if_true] at h
            simp at h
          · simp only [hrm, if_false] at h
            cases hn : nodeData (rmChild t opId oldName).1
                (findFile t (rootOf t dId) (pathJoin dPath oldName)) with
            | none =>
                rw [hn] at h
                simp at h
            | some nd =>
                rw [hn] at h
                cases nd with
                | file gf => simp at h
                | dir p => simp at h

/-- C6 counterexample: `newParent` is a `*GittyDir` of a different tree
instance (inode 2, path `"other"`, unreachable from the source root 0).
The rename does not fail with `EXDEV`: it succeeds, re-keys the backing
entry to the foreign path, and — since the path walk for `"other"`
finds nothing under the source root — re-attaches the node under the
source root itself. -/
theorem rename_foreign_parent_no_exdev :
    gittyRename
        ⟨[(0, NodeData.dir ""), (1, NodeData.file ⟨"a.txt", [104, 105], false⟩),
          (2, NodeData.dir "other")],
          [(0, "a.txt", 1)], 3⟩
        [("a.txt", Entry.file [104, 105] 420), ("other", Entry.dir 493)]
        0 "" "a.txt" (RenameTarget.gdir "other") "b.txt"
      = Except.ok
          (⟨[(0, NodeData.dir ""), (1, NodeData.file ⟨"a.txt", [104, 105], false⟩),
              (2, NodeData.dir "other"),
              (3, NodeData.file ⟨"a.txt", [104, 105], false⟩)],
            [(0, "b.txt", 3)], 4⟩,
            [("other/b.txt", Entry.file [104, 105] 420), ("other", Entry.dir 493)],
            [("a.txt", "delete"), ("other/b.txt", "create")])
    ∧ [("other/b.txt", Entry.file [104, 105] 420), ("other", Entry.dir 493)]
        ≠ ([("a.txt", Entry.file [104, 105] 420), ("other", Entry.dir 493)] : Backing) := by
  constructor
  · rfl
  · decide

/-! ## C2: what a successful `Rename` does and does not update -/

/-- Lemma that `find?` misses every element of a list filtered on the negated
predicate. -/
lemma find?_filter_not {α : Type} (l : List α) (p : α → Bool) :
    (l.filter (fun e => !(p e))).find? p = none := by
  apply List.find?_eq_none.mpr
  intro x hx
  have hm := (List.mem_filter.mp hx).2
  simp at hm
  simp [hm]

/-- C2 counterexample: renaming `a.txt` (buffer `"hi"`) from the root
into the subdirectory `sub` as `b.txt` succeeds, and the relocated
node — inode 3, linked as child `b.txt` of `sub` — still carries the
operations record with stored path `"a.txt"`, not the new absolute path
`"sub/b.txt"`. -/
theorem rename_path_not_updated :
    gittyRename
        ⟨[(0, NodeData.dir ""), (1, NodeData.file ⟨"a.txt", [104, 105], false⟩),
          (2, NodeData.dir "sub")],
          [(0, "a.txt", 1), (0, "sub", 2)], 3⟩
        [("a.txt", Entry.file [104, 105] 420), ("sub", Entry.dir 493)]
        0 "" "a.txt" (RenameTarget.gdir "sub") "b.txt"
      = Except.ok
          (⟨[(0, NodeData.dir ""), (1, NodeData.file ⟨"a.txt", [104, 105], false⟩),
              (2, NodeData.dir "sub"),
              (3, NodeData.file ⟨"a.txt", [104, 105], false⟩)],
            [(0, "sub", 2), (2, "b.txt", 3)], 4⟩,
            [("sub/b.txt", Entry.file [104, 105] 420), ("sub", Entry.dir 493)],
            [("a.txt", "delete"), ("sub/b.txt", "create")])
    ∧ ("a.txt" : String) ≠ "sub/b.txt" := by
  constructor
  · rfl
  · decide

/-- C2 (amended): a successful `Rename` of a file entry detaches the
node from its parent, links it under the resolved new parent with the
new name, reuses the very same operations record — so reading under the
new name returns the content last written under the old name — and the
old name no longer resolves; but the record's stored `path` (and hence
any path derived from it) is left exactly as it was, not updated to the
new absolute path.  The hypotheses name the resolution steps the Go
code performs: `hOld`/`hNp` the `findFile` path walks, `hPar` the
parent lookup, `hHas` the `RmChild` success, `hData` the
`.(*GittyFile)` assertion, `hB` the backing rename, `hFresh` freshness
of the next inode id, `hNe` that source and destination links differ. -/
theorem rename_spec
    (t : NodeTree) (b bNew : Backing) (dId oldId opId npId : Nat)
    (dPath oldName npPath newName : String) (gf : GittyFile)
    (hOld : findFile t (rootOf t dId) (pathJoin dPath oldName) = oldId)
    (hNp : findFile t (rootOf t dId) npPath = npId)
    (hPar : parentOf t oldId = some opId)
    (hHas : hasChild t opId oldName = true)
    (hData : nodeData t oldId = some (NodeData.file gf))
    (hB : renameB b (pathJoin dPath oldName) (pathJoin npPath newName) = some bNew)
    (hFresh : ∀ e ∈ t.nodes, e.1 ≠ t.nextId)
    (hNe : ¬(npId = opId ∧ newName = oldName)) :
    ∃ tNew, gittyRename t b dId dPath oldName (RenameTarget.gdir npPath) newName
        = Except.ok (tNew, bNew,
            [(pathJoin dPath oldName, "delete"), (pathJoin npPath newName, "create")])
      ∧ lookupChild tNew npId newName = some t.nextId
      ∧ nodeData tNew t.nextId = some (NodeData.file gf)
      ∧ lookupChild tNew opId oldName = none := by
  have hrm : rmChild t opId oldName
      = ({ t with edges := t.edges.filter (fun e => !(e.1 = opId && e.2.1 = oldName)) }, true) := by
    simp [rmChild, hHas]
  refine ⟨{ nodes := t.nodes ++ [(t.nextId, NodeData.file gf)],
            edges := ((t.edges.filter (fun e => !(e.1 = opId && e.2.1 = oldName))).filter (fun e => !(e.1 = npId && e.2.1 = newName))) ++ [(npId, newName, t.nextId)],
            nextId := t.nextId + 1 }, ?_, ?_, ?_, ?_⟩
  · unfold gittyRename
    dsimp only [renamePaths]
    rw [hB, hOld, hNp, hPar]
    dsimp only
    rw [hrm]
    dsimp only
    have hD2 : nodeData
        { t with edges := t.edges.filter (fun e => !(e.1 = opId && e.2.1 = oldName)) }
        oldId = some (NodeData.file gf) := hData
    rw [hD2]
    rfl
  · unfold lookupChild
    rw [find?_append_right _ _ _
      (find?_filter_not (t.edges.filter (fun e => !(e.1 = opId && e.2.1 = oldName)))
        (fun e => e.1 = npId && e.2.1 = newName))]
    simp [List.find?]
  · unfold nodeData
    have hnone : t.nodes.find? (fun e => e.1 = t.nextId) = none := by
      apply List.find?_eq_none.mpr
      intro x hx
      simp [hFresh x hx]
    rw [find?_append_right _ _ _ hnone]
    simp [List.find?]
  · unfold lookupChild
    have hleft : (((t.edges.filter (fun e => !(e.1 = opId && e.2.1 = oldName))).filter
        (fun e => !(e.1 = npId && e.2.1 = newName)))).find?
          (fun e => e.1 = opId && e.2.1 = oldName) = none := by
      apply List.find?_eq_none.mpr
      intro x hx
      have hx1 := (List.mem_filter.mp hx).1
      have hm := (List.mem_filter.mp hx1).2
      simp at hm
      simp only [Bool.and_eq_true, decide_eq_true_eq, not_and]
      intro hxx
      rcases hm with hm | hm
      · exact absurd hxx hm
      · exact hm
    rw [find?_append_right _ _ _ hleft]
    have hfalse : ((npId, newName, t.nextId).1 = opId
        && (npId, newName, t.nextId).2.1 = oldName) = false := by
      by_cases h1 : npId = opId
      · have h2 : ¬ newName = oldName := fun hc => hNe ⟨h1, hc⟩
        simp [h2]
      · simp [h1]
    simp [List.find?, hfalse]

/-- Witness for the amended C2 theorem: the counterexample scene,
where every resolution hypothesis holds by computation. -/
theorem rename_spec_witness :
    ∃ tNew, gittyRename
        ⟨[(0, NodeData.dir ""), (1, NodeData.file ⟨"a.txt", [104, 105], false⟩),
          (2, NodeData.dir "sub")],
          [(0, "a.txt", 1), (0, "sub", 2)], 3⟩
        [("a.txt", Entry.file [104, 105] 420), ("sub", Entry.dir 493)]
        0 "" "a.txt" (RenameTarget.gdir "sub") "b.txt"
        = Except.ok (tNew,
            [("sub/b.txt", Entry.file [104, 105] 420), ("sub", Entry.dir 493)],
            [(pathJoin "" "a.txt", "delete"), (pathJoin "sub" "b.txt", "create")])
      ∧ lookupChild tNew 2 "b.txt" = some 3
      ∧ nodeData tNew 3 = some (NodeData.file ⟨"a.txt", [104, 105], false⟩)
      ∧ lookupChild tNew 0 "a.txt" = none :=
  rename_spec
    ⟨[(0, NodeData.dir ""), (1, NodeData.file ⟨"a.txt", [104, 105], false⟩),
      (2, NodeData.dir "sub")],
      [(0, "a.txt", 1), (0, "sub", 2)], 3⟩
    [("a.txt", Entry.file [104, 105] 420), ("sub", Entry.dir 493)]
    [("sub/b.txt", Entry.file [104, 105] 420), ("sub", Entry.dir 493)]
    0 1 0 2 "" "a.txt" "sub" "b.txt" ⟨"a.txt", [104, 105], false⟩
    (by decide) (by decide) (by decide) (by decide) (by decide) (by decide)
    (by decide) (by decide)

/-! ## C8: debounce coalescing -/

/-- Outside the scheduled burst no event arrives. -/
lemma sched_false_of_out (a b : Nat) (sched : Nat → Bool)
    (hs : ∀ u, sched u = true ↔ (a ≤ u ∧ u ≤ b)) (u : Nat)
    (h : ¬(a ≤ u ∧ u ≤ b)) : sched u = false := by
  cases hv : sched u
  · rfl
  · exact absurd ((hs u).mp hv) h

/-- Phase characterisation of the manager run under a burst of events
occupying exactly the time slots `[a, b]` (consecutive events less than
the 2-unit quiescence threshold apart): before the burst the state is
untouched; from the first event until one tick before quiescence the
manager is dirty with `lastChangeTime` tracking the latest event; from
time `b + 2` on, exactly one synchronization cycle has run, at time
`b + 2`. -/
lemma simRun_phases (a b : Nat) (sched : Nat → Bool) (hab : a ≤ b)
    (hs : ∀ u, sched u = true ↔ (a ≤ u ∧ u ≤ b)) :
    ∀ T, simRun sched T =
      if T ≤ a then (mInit, [])
      else if T ≤ b + 2 then ({ isDirty := true, lastChangeTime := min (T - 1) b }, [])
      else ({ isDirty := false, lastChangeTime := b }, [b + 2]) := by
  intro T
  induction T with
  | zero =>
      rw [if_pos (Nat.zero_le a)]
      rfl
  | succ T ih =>
      have hstep : simRun sched (T + 1)
          = ((simStep sched T (simRun sched T).1).1,
              if (simStep sched T (simRun sched T).1).2
              then (simRun sched T).2 ++ [T] else (simRun sched T).2) := rfl
      by_cases h1 : T + 1 ≤ a
      · rw [if_pos h1, hstep, ih, if_pos (by omega : T ≤ a)]
        have hsf : sched T = false := sched_false_of_out a b sched hs T (by omega)
        simp [simStep, hsf, runStep, mInit]
      · by_cases h2 : T + 1 ≤ b + 2
        · rw [if_neg h1, if_pos h2, hstep, ih]
          by_cases h3 : T ≤ a
          · -- T = a: the first event arrives, no cycle fires
            rw [if_pos h3]
            have hst : sched T = true := (hs T).mpr ⟨by omega, by omega⟩
            have hnot : ¬ (2 ≤ T - T) := by omega
            have hmin : min (T + 1 - 1) b = T := by omega
            simp [simStep, hst, runStep, hnot, hmin]
            omega
          · rw [if_neg h3, if_pos (by omega : T ≤ b + 2)]
            by_cases h4 : T ≤ b
            · -- inside the burst: the event refreshes lastChangeTime
              have hst : sched T = true := (hs T).mpr ⟨by omega, by omega⟩
              have hnot : ¬ (2 ≤ T - T) := by omega
              have hmin : min (T + 1 - 1) b = T := by omega
              simp [simStep, hst, runStep, hnot, hmin]
              omega
            · -- T = b + 1: silence, but quiescence not yet reached
              have hsf : sched T = false := sched_false_of_out a b sched hs T (by omega)
              have hmin1 : min (T - 1) b = b := by omega
              have hnot : ¬ (2 ≤ T - b) := by omega
              have hmin : min (T + 1 - 1) b = b := by omega
              simp [simStep, hsf, runStep, hmin1, hnot, hmin]
              omega
        · rw [if_neg h1, if_neg h2, hstep, ih]
          by_cases h5 : T ≤ b + 2
          · -- T = b + 2: quiescence reached, the one cycle runs and succeeds
            have hT : T = b + 2 := by omega
            subst hT
            rw [if_neg (by omega : ¬ b + 2 ≤ a), if_pos h5]
            have hsf : sched (b + 2) = false :=
              sched_false_of_out a b sched hs (b + 2) (by omega)
            have hmin1 : min (b + 2 - 1) b = b := by omega
            have hfire : 2 ≤ b + 2 - b := by omega
            simp [simStep, hsf, runStep, hmin1, hfire, syncToGit, allOkEnv]
          · -- after the cycle: clean, no events, no further cycles
            rw [if_neg (by omega : ¬ T ≤ a), if_neg h5]
            have hsf : sched T = false := sched_false_of_out a b sched hs T (by omega)
            simp [simStep, hsf, runStep]

/-- C8: a burst of events occupying the time slots `[a, b]` — any two
consecutive events separated by less than the quiescence threshold of 2
time units — followed by silence, produces exactly one synchronization
cycle, and it runs at time `b + 2`: after the last event and only once
the threshold has elapsed, not after each event. -/
theorem debounce_single_cycle (a b T : Nat) (sched : Nat → Bool)
    (hab : a ≤ b)
    (hs : ∀ u, sched u = true ↔ (a ≤ u ∧ u ≤ b))
    (hT : b + 3 ≤ T) :
    (simRun sched T).2 = [b + 2]
    ∧ (simRun sched T).1 = { isDirty := false, lastChangeTime := b } := by
  have hph := simRun_phases a b sched hab hs T
  rw [if_neg (by omega), if_neg (by omega)] at hph
  rw [hph]
  exact ⟨rfl, rfl⟩

/-- Witness for C8, the spec's scenario shape: three events at times
0, 1, 2, then silence; running to time 6 shows exactly one cycle, at
time 4 = 2 + threshold. -/
theorem debounce_single_cycle_witness :
    (simRun (fun u => decide (u ≤ 2)) 6).2 = [4]
    ∧ (simRun (fun u => decide (u ≤ 2)) 6).1
        = { isDirty := false, lastChangeTime := 2 } :=
  debounce_single_cycle 0 2 6 (fun u => decide (u ≤ 2)) (by omega)
    (fun u => by simp) (by omega)
